import Mathlib

/-!
# Verification of the ZOF (Zero of Functions) root-finder core

Shallow embedding of the six iterative root-finding methods of
`ZOF_CLI.py` (bisection, regula falsi, secant, Newton-Raphson,
fixed-point iteration, modified secant).

Modelling choices:
* Python floats are modelled as exact rationals `ℚ`; decimal literals of
  the source (`1e-6`, `1e-3`) become the exact rationals `1/1000000`,
  `1/1000`.
* Python's `float("inf")` (the iteration-1 error of regula falsi) and the
  `None` function-value slot of fixed-point iteration are modelled as the
  `none` case of `Option ℚ`; `inf < tol` is `False` for every (finite,
  hence every) rational tolerance, which `errLt` reflects.
* A `raise` is modelled as `Except.error`; reaching the final
  `return c,err,max_iter,rows` with the loop never executed (Python's
  `UnboundLocalError` when `max_iter <= 0`) is `SolveError.unboundLocal`.
* All six loops share Python's shape
  `for i in range(1, max_iter+1): ...` with one appended row per pass,
  an early `return` on the stop test, and a final return of the last
  computed estimate.  This shared shape is `go`/`runLoop`; each method
  supplies its loop body as a step function translated from its source.
-/

set_option allowUnsafeReducibility true in
attribute [semireducible] Rat.mul Rat.add Rat.sub Rat.inv Rat.div Rat.neg

/-- The ways a solve call can fail (Python exceptions). -/
inductive SolveError where
  | invalidBracket
  | zeroDenominator
  | zeroDerivative
  | zeroDerivativeApprox
  | divisionByZero
  | unboundLocal
  deriving DecidableEq

/-- One row `(i, x, f(x), err)` appended per loop pass.  `fx = none` is
Python's `None` (fixed-point); `err = none` is `float("inf")`
(regula falsi, first pass). -/
structure IterationRecord where
  idx : ℕ
  x : ℚ
  fx : Option ℚ
  err : Option ℚ
  deriving DecidableEq

/-- The tuple `root, err, iterations, rows` a method returns. -/
structure SolveResult where
  root : ℚ
  err : Option ℚ
  iters : ℕ
  rows : List IterationRecord
  deriving DecidableEq

/-- Result of one loop pass: the new iterate, the recorded function value
and error, whether the early-return test fired, and the state for the
next pass. -/
structure StepRes (σ : Type) where
  x : ℚ
  fx : Option ℚ
  err : Option ℚ
  stop : Bool
  next : σ

/-- `e < tol` for a possibly-infinite error value: `none` models
`float("inf")`, which is `<` no finite tolerance. -/
def errLt : Option ℚ → ℚ → Prop
  | some e, tol => e < tol
  | none, _ => False

instance errLt.decidable (e : Option ℚ) (tol : ℚ) : Decidable (errLt e tol) :=
  match e with
  | some v => inferInstanceAs (Decidable (v < tol))
  | none => isFalse id

/-- Boolean form of `errLt`, used inside the step functions. -/
def errLtB : Option ℚ → ℚ → Bool
  | some e, tol => decide (e < tol)
  | none, _ => false

/-- The shared loop body of all six methods:
`for i in range(1, max_iter+1)` with `fuel` passes left, current index
`i`, state `s`, accumulated `rows`, and `last` the `(x, err)` of the most
recent pass (`none` before the first pass).  Exhausting the fuel returns
the last computed estimate with iteration count `mIter`; with no pass
executed the final `return` reads unassigned variables
(`SolveError.unboundLocal`). -/
def go {σ : Type} (step : σ → Except SolveError (StepRes σ)) (mIter : ℕ) :
    ℕ → ℕ → σ → List IterationRecord → Option (ℚ × Option ℚ) →
    Except SolveError SolveResult
  | 0, _, _, rows, last =>
    match last with
    | none => .error .unboundLocal
    | some (x, e) => .ok ⟨x, e, mIter, rows⟩
  | fuel+1, i, s, rows, _ =>
    match step s with
    | .error e => .error e
    | .ok r =>
      let rows' := rows ++ [⟨i, r.x, r.fx, r.err⟩]
      if r.stop then .ok ⟨r.x, r.err, i, rows'⟩
      else go step mIter fuel (i+1) r.next rows' (some (r.x, r.err))

/-- Run a method loop: `max_iter` is the Python `int` argument;
`range(1, max_iter+1)` executes `max_iter.toNat` passes. -/
def runLoop {σ : Type} (step : σ → Except SolveError (StepRes σ))
    (max_iter : ℤ) (s0 : σ) : Except SolveError SolveResult :=
  go step max_iter.toNat max_iter.toNat 1 s0 [] none

/-- The state reached after `j` loop passes (ignoring early returns),
or the first error raised on the way. -/
def states {σ : Type} (step : σ → Except SolveError (StepRes σ)) (s0 : σ) :
    ℕ → Except SolveError σ
  | 0 => .ok s0
  | j+1 =>
    match step s0 with
    | .error e => .error e
    | .ok r => states step r.next j

/-- The pass result of loop pass `j+1` (0-indexed `j`). -/
def stepAt {σ : Type} (step : σ → Except SolveError (StepRes σ)) (s0 : σ)
    (j : ℕ) : Except SolveError (StepRes σ) :=
  match states step s0 j with
  | .error e => .error e
  | .ok s => step s

/-- Whether a pass result is a normal pass (no raise). -/
def isOkE {ε α : Type} : Except ε α → Bool
  | .ok _ => true
  | .error _ => false

/-- The stop flag of a pass result; an error never returns successfully. -/
def stopOf {σ : Type} : Except SolveError (StepRes σ) → Bool
  | .ok r => r.stop
  | .error _ => false

/-- The iterate computed by a pass result. -/
def xOf {σ : Type} : Except SolveError (StepRes σ) → Option ℚ
  | .ok r => some r.x
  | .error _ => none

/-- The error estimate computed by a pass result. -/
def errOf {σ : Type} : Except SolveError (StepRes σ) → Option (Option ℚ)
  | .ok r => some r.err
  | .error _ => none

/-- The `IterationRecord` a pass result appends, with 1-indexed index
`j+1`. -/
def recOf {σ : Type} : Except SolveError (StepRes σ) → ℕ → Option IterationRecord
  | .ok r, j => some ⟨j+1, r.x, r.fx, r.err⟩
  | .error _, _ => none

instance exceptDecEq {ε α : Type} [DecidableEq ε] [DecidableEq α] :
    DecidableEq (Except ε α) := fun x y =>
  match x, y with
  | .ok a, .ok b =>
    if h : a = b then isTrue (h ▸ rfl) else isFalse fun hh => h (Except.ok.inj hh)
  | .error a, .error b =>
    if h : a = b then isTrue (h ▸ rfl) else isFalse fun hh => h (Except.error.inj hh)
  | .ok _, .error _ => isFalse fun hh => Except.noConfusion hh
  | .error _, .ok _ => isFalse fun hh => Except.noConfusion hh

/-- `numerical_derivative(f, x, h=1e-6)`. -/
def numerical_derivative (f : ℚ → ℚ) (x : ℚ) (h : ℚ := 1/1000000) : ℚ :=
  (f (x+h) - f (x-h)) / (2*h)

/-- Bisection loop state: the bracket `[a, b]` and the cached values
`fa = f a`, `fb = f b`. -/
structure BisState where
  a : ℚ
  b : ℚ
  fa : ℚ
  fb : ℚ
  deriving DecidableEq

/-- One pass of the `bisection` loop. -/
def bisStep (f : ℚ → ℚ) (tol : ℚ) (s : BisState) :
    Except SolveError (StepRes BisState) :=
  let c := (s.a + s.b) / 2
  let fc := f c
  let err := |s.b - s.a| / 2
  .ok { x := c, fx := some fc, err := some err,
        stop := decide (|fc| < tol) || decide (err < tol),
        next := if s.fa * fc < 0 then ⟨s.a, c, s.fa, fc⟩ else ⟨c, s.b, fc, s.fb⟩ }

/-- `bisection(f, a, b, tol, max_iter=100)`. -/
def bisection (f : ℚ → ℚ) (a b tol : ℚ) (max_iter : ℤ := 100) :
    Except SolveError SolveResult :=
  let fa := f a
  let fb := f b
  if fa * fb > 0 then .error .invalidBracket
  else runLoop (bisStep f tol) max_iter ⟨a, b, fa, fb⟩

/-- Regula falsi loop state: bracket, cached endpoint values, and the
previous estimate.  `cPrev = none` encodes Python's `i == 1` case, whose
error is `float("inf")`. -/
structure RegState where
  a : ℚ
  b : ℚ
  fa : ℚ
  fb : ℚ
  cPrev : Option ℚ
  deriving DecidableEq

/-- One pass of the `regula_falsi` loop.  Python's
`c=(a*fb-b*fa)/(fb-fa)` raises `ZeroDivisionError` when `fb - fa == 0`
(both cached endpoint values zero). -/
def regStep (f : ℚ → ℚ) (tol : ℚ) (s : RegState) :
    Except SolveError (StepRes RegState) :=
  if s.fb - s.fa = 0 then .error .divisionByZero
  else
    let c := (s.a * s.fb - s.b * s.fa) / (s.fb - s.fa)
    let fc := f c
    let err : Option ℚ :=
      match s.cPrev with
      | none => none
      | some cp => some (|c - cp|)
    .ok { x := c, fx := some fc, err := err,
          stop := decide (|fc| < tol) || errLtB err tol,
          next := if s.fa * fc < 0 then ⟨s.a, c, s.fa, fc, some c⟩
                  else ⟨c, s.b, fc, s.fb, some c⟩ }

/-- `regula_falsi(f, a, b, tol, max_iter=100)`. -/
def regula_falsi (f : ℚ → ℚ) (a b tol : ℚ) (max_iter : ℤ := 100) :
    Except SolveError SolveResult :=
  let fa := f a
  let fb := f b
  if fa * fb > 0 then .error .invalidBracket
  else runLoop (regStep f tol) max_iter ⟨a, b, fa, fb, none⟩

/-- Secant loop state: the previous two estimates. -/
structure SecState where
  x0 : ℚ
  x1 : ℚ
  deriving DecidableEq

/-- One pass of the `secant` loop. -/
def secStep (f : ℚ → ℚ) (tol : ℚ) (s : SecState) :
    Except SolveError (StepRes SecState) :=
  let f0 := f s.x0
  let f1 := f s.x1
  if f1 - f0 = 0 then .error .zeroDenominator
  else
    let x2 := s.x1 - f1 * (s.x1 - s.x0) / (f1 - f0)
    let err := |x2 - s.x1|
    .ok { x := x2, fx := some (f x2), err := some err,
          stop := decide (|f x2| < tol) || decide (err < tol),
          next := ⟨s.x1, x2⟩ }

/-- `secant(f, x0, x1, tol, max_iter=100)`. -/
def secant (f : ℚ → ℚ) (x0 x1 tol : ℚ) (max_iter : ℤ := 100) :
    Except SolveError SolveResult :=
  runLoop (secStep f tol) max_iter ⟨x0, x1⟩

/-- One pass of the `newton_raphson` loop (state: the current iterate). -/
def newtStep (f : ℚ → ℚ) (tol : ℚ) (x : ℚ) :
    Except SolveError (StepRes ℚ) :=
  let fx := f x
  let dfx := numerical_derivative f x
  if dfx = 0 then .error .zeroDerivative
  else
    let x_new := x - fx / dfx
    let err := |x_new - x|
    .ok { x := x_new, fx := some (f x_new), err := some err,
          stop := decide (|f x_new| < tol) || decide (err < tol),
          next := x_new }

/-- `newton_raphson(f, x0, tol, max_iter=100)`. -/
def newton_raphson (f : ℚ → ℚ) (x0 tol : ℚ) (max_iter : ℤ := 100) :
    Except SolveError SolveResult :=
  runLoop (newtStep f tol) max_iter x0

/-- One pass of the `fixed_point_iteration` loop: no function value is
recorded (`fx = none`) and the stop test uses only the error. -/
def fixStep (g : ℚ → ℚ) (tol : ℚ) (x : ℚ) :
    Except SolveError (StepRes ℚ) :=
  let x_new := g x
  let err := |x_new - x|
  .ok { x := x_new, fx := none, err := some err,
        stop := decide (err < tol), next := x_new }

/-- `fixed_point_iteration(g, x0, tol, max_iter=100)`. -/
def fixed_point_iteration (g : ℚ → ℚ) (x0 tol : ℚ) (max_iter : ℤ := 100) :
    Except SolveError SolveResult :=
  runLoop (fixStep g tol) max_iter x0

/-- The shared part of a `modified_secant` pass after the derivative
approximation `dfx` is computed: Python's zero check, update and stop
test. -/
def modTail (f : ℚ → ℚ) (tol : ℚ) (x fx dfx : ℚ) :
    Except SolveError (StepRes ℚ) :=
  if dfx = 0 then .error .zeroDerivativeApprox
  else
    let x_new := x - fx / dfx
    let err := |x_new - x|
    .ok { x := x_new, fx := some (f x_new), err := some err,
          stop := decide (|f x_new| < tol) || decide (err < tol),
          next := x_new }

/-- One pass of the `modified_secant` loop.  For `x ≠ 0` the derivative
approximation divides by `delta*x`, raising Python's `ZeroDivisionError`
when that is zero (`delta == 0`); for `x == 0` it falls back to
`numerical_derivative`. -/
def modStep (f : ℚ → ℚ) (delta tol : ℚ) (x : ℚ) :
    Except SolveError (StepRes ℚ) :=
  let fx := f x
  if x ≠ 0 then
    if delta * x = 0 then .error .divisionByZero
    else modTail f tol x fx ((f (x + delta * x) - fx) / (delta * x))
  else modTail f tol x fx (numerical_derivative f x)

/-- `modified_secant(f, x0, delta, tol, max_iter=100)`. -/
def modified_secant (f : ℚ → ℚ) (x0 delta tol : ℚ) (max_iter : ℤ := 100) :
    Except SolveError SolveResult :=
  runLoop (modStep f delta tol) max_iter x0

/-! ## Unfolding lemmas for the shared loop -/

theorem stepAt_zero {σ : Type} (step : σ → Except SolveError (StepRes σ)) (s0 : σ) :
    stepAt step s0 0 = step s0 := rfl

theorem states_succ_of_ok {σ : Type} (step : σ → Except SolveError (StepRes σ))
    {s0 : σ} {r : StepRes σ} (h : step s0 = .ok r) (j : ℕ) :
    states step s0 (j+1) = states step r.next j := by
  show (match step s0 with
        | .error e => Except.error e
        | .ok r => states step r.next j) = states step r.next j
  rw [h]

theorem states_succ_of_error {σ : Type} (step : σ → Except SolveError (StepRes σ))
    {s0 : σ} {e : SolveError} (h : step s0 = .error e) (j : ℕ) :
    states step s0 (j+1) = .error e := by
  show (match step s0 with
        | .error e => Except.error e
        | .ok r => states step r.next j) = Except.error e
  rw [h]

theorem stepAt_succ_of_ok {σ : Type} (step : σ → Except SolveError (StepRes σ))
    {s0 : σ} {r : StepRes σ} (h : step s0 = .ok r) (j : ℕ) :
    stepAt step s0 (j+1) = stepAt step r.next j := by
  unfold stepAt
  rw [states_succ_of_ok step h]

theorem stepAt_eq_of_states {σ : Type} (step : σ → Except SolveError (StepRes σ))
    {s0 s : σ} {n : ℕ} (h : states step s0 n = .ok s) :
    stepAt step s0 n = step s := by
  unfold stepAt
  rw [h]

theorem states_back_ok {σ : Type} (step : σ → Except SolveError (StepRes σ)) :
    ∀ (n : ℕ) (s0 s : σ) (r : StepRes σ), states step s0 n = .ok s → step s = .ok r →
      states step s0 (n+1) = .ok r.next := by
  intro n
  induction n with
  | zero =>
    intro s0 s r h0 hs
    have hs0 : s0 = s := by
      have h0' : Except.ok (ε := SolveError) s0 = .ok s := h0
      exact Except.ok.inj h0'
    rw [states_succ_of_ok step (hs0 ▸ hs)]
    rfl
  | succ n ih =>
    intro s0 s r h0 hs
    cases h1 : step s0 with
    | error e =>
      exfalso
      rw [states_succ_of_error step h1] at h0
      exact Except.noConfusion h0
    | ok r0 =>
      rw [states_succ_of_ok step h1] at h0
      rw [states_succ_of_ok step h1]
      exact ih r0.next s r h0 hs

theorem go_zero {σ : Type} (step : σ → Except SolveError (StepRes σ)) (mIter i : ℕ)
    (s : σ) (rows : List IterationRecord) (last : Option (ℚ × Option ℚ)) :
    go step mIter 0 i s rows last =
      match last with
      | none => .error .unboundLocal
      | some (x, e) => .ok ⟨x, e, mIter, rows⟩ := rfl

theorem go_succ_error {σ : Type} (step : σ → Except SolveError (StepRes σ))
    (mIter fuel i : ℕ) (s : σ) (rows : List IterationRecord)
    (last : Option (ℚ × Option ℚ)) {e : SolveError} (hs : step s = .error e) :
    go step mIter (fuel+1) i s rows last = .error e := by
  unfold go
  rw [hs]

theorem go_succ_stop {σ : Type} (step : σ → Except SolveError (StepRes σ))
    (mIter fuel i : ℕ) (s : σ) (rows : List IterationRecord)
    (last : Option (ℚ × Option ℚ)) {r : StepRes σ} (hs : step s = .ok r)
    (hstop : r.stop = true) :
    go step mIter (fuel+1) i s rows last =
      .ok ⟨r.x, r.err, i, rows ++ [⟨i, r.x, r.fx, r.err⟩]⟩ := by
  unfold go
  rw [hs]
  simp only [hstop, if_true]

theorem go_succ_cont {σ : Type} (step : σ → Except SolveError (StepRes σ))
    (mIter fuel i : ℕ) (s : σ) (rows : List IterationRecord)
    (last : Option (ℚ × Option ℚ)) {r : StepRes σ} (hs : step s = .ok r)
    (hstop : r.stop = false) :
    go step mIter (fuel+1) i s rows last =
      go step mIter fuel (i+1) r.next (rows ++ [⟨i, r.x, r.fx, r.err⟩])
        (some (r.x, r.err)) := by
  conv_lhs => unfold go
  rw [hs]
  simp only [hstop, Bool.false_eq_true, if_false]

/-! ## The shared termination policy, proved once for the shared loop -/

/-- If passes `1..k` run without raising and without meeting the stop test,
and pass `k+1` runs and meets it, the loop returns that pass's estimate and
error with iteration count `i + k`. -/
theorem go_stop {σ : Type} (step : σ → Except SolveError (StepRes σ)) (mIter : ℕ) :
    ∀ (k fuel i : ℕ) (s : σ) (rows : List IterationRecord)
      (last : Option (ℚ × Option ℚ)) (r : StepRes σ),
      k < fuel →
      (∀ j, j < k → isOkE (stepAt step s j) = true ∧ stopOf (stepAt step s j) = false) →
      stepAt step s k = .ok r → r.stop = true →
      ∃ tr, go step mIter fuel i s rows last = .ok ⟨r.x, r.err, i + k, tr⟩ := by
  intro k
  induction k with
  | zero =>
    intro fuel i s rows last r hk _ hr hstop
    match fuel, hk with
    | fuel+1, _ =>
      rw [stepAt_zero] at hr
      exact ⟨_, go_succ_stop step mIter fuel i s rows last hr hstop⟩
  | succ k ih =>
    intro fuel i s rows last r hk hpre hr hstop
    match fuel, hk with
    | fuel+1, hk =>
      have h0 := hpre 0 (Nat.succ_pos k)
      cases hs : step s with
      | error e =>
        exfalso
        rw [stepAt_zero, hs] at h0
        exact Bool.noConfusion h0.1
      | ok r0 =>
        have hstop0 : r0.stop = false := by
          have := h0.2
          rw [stepAt_zero, hs] at this
          exact this
        have hpre' : ∀ j, j < k →
            isOkE (stepAt step r0.next j) = true ∧
            stopOf (stepAt step r0.next j) = false := by
          intro j hj
          have := hpre (j+1) (Nat.succ_lt_succ hj)
          rwa [stepAt_succ_of_ok step hs] at this
        have hr' : stepAt step r0.next k = .ok r := by
          rw [← stepAt_succ_of_ok step hs]
          exact hr
        obtain ⟨tr, htr⟩ := ih fuel (i+1) r0.next
          (rows ++ [⟨i, r0.x, r0.fx, r0.err⟩]) (some (r0.x, r0.err)) r
          (Nat.lt_of_succ_lt_succ hk) hpre' hr' hstop
        refine ⟨tr, ?_⟩
        rw [go_succ_cont step mIter fuel i s rows last hs hstop0, htr]
        have : i + 1 + k = i + (k + 1) := by omega
        rw [this]

/-- If all `fuel+1` passes run without raising or stopping, the loop
exhausts the cap and returns the last pass's estimate and error with
iteration count `mIter`. -/
theorem go_exhaust {σ : Type} (step : σ → Except SolveError (StepRes σ)) (mIter : ℕ) :
    ∀ (fuel i : ℕ) (s : σ) (rows : List IterationRecord)
      (last : Option (ℚ × Option ℚ)) (r : StepRes σ),
      (∀ j, j < fuel + 1 → isOkE (stepAt step s j) = true ∧ stopOf (stepAt step s j) = false) →
      stepAt step s fuel = .ok r →
      ∃ tr, go step mIter (fuel+1) i s rows last = .ok ⟨r.x, r.err, mIter, tr⟩ := by
  intro fuel
  induction fuel with
  | zero =>
    intro i s rows last r hpre hr
    rw [stepAt_zero] at hr
    have hstop : r.stop = false := by
      have := (hpre 0 Nat.zero_lt_one).2
      rw [stepAt_zero, hr] at this
      exact this
    rw [go_succ_cont step mIter 0 i s rows last hr hstop, go_zero]
    exact ⟨_, rfl⟩
  | succ fuel ih =>
    intro i s rows last r hpre hr
    have h0 := hpre 0 (Nat.succ_pos _)
    cases hs : step s with
    | error e =>
      exfalso
      rw [stepAt_zero, hs] at h0
      exact Bool.noConfusion h0.1
    | ok r0 =>
      have hstop0 : r0.stop = false := by
        have := h0.2
        rw [stepAt_zero, hs] at this
        exact this
      have hpre' : ∀ j, j < fuel + 1 →
          isOkE (stepAt step r0.next j) = true ∧
          stopOf (stepAt step r0.next j) = false := by
        intro j hj
        have := hpre (j+1) (Nat.succ_lt_succ hj)
        rwa [stepAt_succ_of_ok step hs] at this
      have hr' : stepAt step r0.next fuel = .ok r := by
        rw [← stepAt_succ_of_ok step hs]
        exact hr
      obtain ⟨tr, htr⟩ := ih (i+1) r0.next
        (rows ++ [⟨i, r0.x, r0.fx, r0.err⟩]) (some (r0.x, r0.err)) r hpre' hr'
      exact ⟨tr, by rw [go_succ_cont step mIter (fuel+1) i s rows last hs hstop0, htr]⟩

/-- If passes `1..k` run without raising or stopping and pass `k+1`
raises, the loop raises that error. -/
theorem go_error {σ : Type} (step : σ → Except SolveError (StepRes σ)) (mIter : ℕ) :
    ∀ (k fuel i : ℕ) (s : σ) (rows : List IterationRecord)
      (last : Option (ℚ × Option ℚ)) (e : SolveError),
      k < fuel →
      (∀ j, j < k → isOkE (stepAt step s j) = true ∧ stopOf (stepAt step s j) = false) →
      stepAt step s k = .error e →
      go step mIter fuel i s rows last = .error e := by
  intro k
  induction k with
  | zero =>
    intro fuel i s rows last e hk _ hr
    match fuel, hk with
    | fuel+1, _ =>
      rw [stepAt_zero] at hr
      exact go_succ_error step mIter fuel i s rows last hr
  | succ k ih =>
    intro fuel i s rows last e hk hpre hr
    match fuel, hk with
    | fuel+1, hk =>
      have h0 := hpre 0 (Nat.succ_pos k)
      cases hs : step s with
      | error e' =>
        exfalso
        rw [stepAt_zero, hs] at h0
        exact Bool.noConfusion h0.1
      | ok r0 =>
        have hstop0 : r0.stop = false := by
          have := h0.2
          rw [stepAt_zero, hs] at this
          exact this
        have hpre' : ∀ j, j < k →
            isOkE (stepAt step r0.next j) = true ∧
            stopOf (stepAt step r0.next j) = false := by
          intro j hj
          have := hpre (j+1) (Nat.succ_lt_succ hj)
          rwa [stepAt_succ_of_ok step hs] at this
        have hr' : stepAt step r0.next k = .error e := by
          rw [← stepAt_succ_of_ok step hs]
          exact hr
        rw [go_succ_cont step mIter fuel i s rows last hs hstop0]
        exact ih fuel (i+1) r0.next _ _ e (Nat.lt_of_succ_lt_succ hk) hpre' hr'

/-- Converse direction: when the loop returns a result, every pass strictly
before the returned iteration count ran without raising and without meeting
the stop test. -/
theorem go_ok_inv {σ : Type} (step : σ → Except SolveError (StepRes σ)) (mIter : ℕ) :
    ∀ (fuel i : ℕ) (s : σ) (rows : List IterationRecord)
      (last : Option (ℚ × Option ℚ)) (res : SolveResult),
      go step mIter fuel i s rows last = .ok res →
      i + fuel = mIter + 1 →
      ∀ j, i + j < res.iters →
        isOkE (stepAt step s j) = true ∧ stopOf (stepAt step s j) = false := by
  intro fuel
  induction fuel with
  | zero =>
    intro i s rows last res hgo hinv j hj
    exfalso
    rw [go_zero] at hgo
    match last, hgo with
    | some (x, e), hgo =>
      have : res.iters = mIter := by
        have := Except.ok.inj hgo
        rw [← this]
      omega
  | succ fuel ih =>
    intro i s rows last res hgo hinv j hj
    cases hs : step s with
    | error e =>
      rw [go_succ_error step mIter fuel i s rows last hs] at hgo
      exact Except.noConfusion hgo
    | ok r =>
      cases hstop : r.stop with
      | true =>
        exfalso
        rw [go_succ_stop step mIter fuel i s rows last hs hstop] at hgo
        have : res.iters = i := by
          have := Except.ok.inj hgo
          rw [← this]
        omega
      | false =>
        rw [go_succ_cont step mIter fuel i s rows last hs hstop] at hgo
        cases j with
        | zero =>
          rw [stepAt_zero]
          rw [hs]
          exact ⟨rfl, hstop⟩
        | succ j =>
          rw [stepAt_succ_of_ok step hs]
          exact ih (i+1) r.next _ _ res hgo (by omega) j (by omega)

/-- When the loop raises, the error is either the empty-loop
`unboundLocal` or an error some pass raised. -/
theorem go_error_source {σ : Type} (step : σ → Except SolveError (StepRes σ)) (mIter : ℕ) :
    ∀ (fuel i : ℕ) (s : σ) (rows : List IterationRecord)
      (last : Option (ℚ × Option ℚ)) (e : SolveError),
      go step mIter fuel i s rows last = .error e →
      e = .unboundLocal ∨ ∃ s', step s' = .error e := by
  intro fuel
  induction fuel with
  | zero =>
    intro i s rows last e hgo
    rw [go_zero] at hgo
    match last, hgo with
    | none, hgo => exact Or.inl (Except.error.inj hgo).symm
  | succ fuel ih =>
    intro i s rows last e hgo
    cases hs : step s with
    | error e' =>
      rw [go_succ_error step mIter fuel i s rows last hs] at hgo
      have : e' = e := Except.error.inj hgo
      exact Or.inr ⟨s, by rw [hs, this]⟩
    | ok r =>
      cases hstop : r.stop with
      | true =>
        rw [go_succ_stop step mIter fuel i s rows last hs hstop] at hgo
        exact Except.noConfusion hgo
      | false =>
        rw [go_succ_cont step mIter fuel i s rows last hs hstop] at hgo
        exact ih (i+1) r.next _ _ e hgo

/-- Row invariant: a returned trace extends the accumulated rows with one
record per executed pass, each record being exactly what the pass at that
position of the trajectory from `s0` computed, with a 1-based index. -/
theorem go_rows {σ : Type} (step : σ → Except SolveError (StepRes σ)) (mIter : ℕ)
    (s0 : σ) :
    ∀ (fuel : ℕ) (s : σ) (rows : List IterationRecord)
      (last : Option (ℚ × Option ℚ)) (res : SolveResult),
      go step mIter fuel (rows.length + 1) s rows last = .ok res →
      rows.length + 1 + fuel = mIter + 1 →
      states step s0 rows.length = .ok s →
      (∀ j, (hj : j < rows.length) → recOf (stepAt step s0 j) j = some (rows[j])) →
      res.rows.length = res.iters ∧
      ∀ j, (hj : j < res.rows.length) → recOf (stepAt step s0 j) j = some (res.rows[j]) := by
  intro fuel
  induction fuel with
  | zero =>
    intro s rows last res hgo hinv hst hrows
    rw [go_zero] at hgo
    match last, hgo with
    | some (x, e), hgo =>
      have hres : res = ⟨x, e, mIter, rows⟩ := (Except.ok.inj hgo).symm
      subst hres
      refine ⟨?_, hrows⟩
      show rows.length = mIter
      omega
  | succ fuel ih =>
    intro s rows last res hgo hinv hst hrows
    cases hs : step s with
    | error e =>
      rw [go_succ_error step mIter fuel _ s rows last hs] at hgo
      exact Except.noConfusion hgo
    | ok r =>
      have hstepAt : stepAt step s0 rows.length = .ok r := by
        rw [stepAt_eq_of_states step hst]
        exact hs
      have hrows' : ∀ j, (hj : j < (rows ++ [(⟨rows.length + 1, r.x, r.fx, r.err⟩ : IterationRecord)]).length) →
          recOf (stepAt step s0 j) j =
            some ((rows ++ [(⟨rows.length + 1, r.x, r.fx, r.err⟩ : IterationRecord)])[j]) := by
        intro j hj
        rw [List.length_append, List.length_singleton] at hj
        rcases Nat.lt_succ_iff_lt_or_eq.mp hj with hj' | hj'
        · rw [List.getElem_append_left hj']
          exact hrows j hj'
        · subst hj'
          rw [List.getElem_concat_length _ _ _ rfl]
          rw [hstepAt]
          rfl
      cases hstop : r.stop with
      | true =>
        rw [go_succ_stop step mIter fuel _ s rows last hs hstop] at hgo
        have hres : res = ⟨r.x, r.err, rows.length + 1,
            rows ++ [⟨rows.length + 1, r.x, r.fx, r.err⟩]⟩ := (Except.ok.inj hgo).symm
        subst hres
        constructor
        · simp
        · exact hrows'
      | false =>
        rw [go_succ_cont step mIter fuel _ s rows last hs hstop] at hgo
        have hlen : (rows ++ [(⟨rows.length + 1, r.x, r.fx, r.err⟩ : IterationRecord)]).length
            = rows.length + 1 := by simp
        have hst' : states step s0
            (rows ++ [(⟨rows.length + 1, r.x, r.fx, r.err⟩ : IterationRecord)]).length
            = .ok r.next := by
          rw [hlen]
          exact states_back_ok step rows.length s0 s r hst hs
        have := ih r.next (rows ++ [⟨rows.length + 1, r.x, r.fx, r.err⟩])
          (some (r.x, r.err)) res (by rw [hlen]; exact hgo) (by rw [hlen]; omega) hst' hrows'
        exact this

/-! ## The same facts at the level of a whole method call -/

theorem runLoop_first_stop {σ : Type} (step : σ → Except SolveError (StepRes σ))
    (m : ℤ) (s0 : σ) (k : ℕ) (r : StepRes σ)
    (hk : k < m.toNat)
    (hpre : ∀ j, j < k → isOkE (stepAt step s0 j) = true ∧ stopOf (stepAt step s0 j) = false)
    (hr : stepAt step s0 k = .ok r) (hstop : r.stop = true) :
    ∃ tr, runLoop step m s0 = .ok ⟨r.x, r.err, k + 1, tr⟩ := by
  unfold runLoop
  have h := go_stop step m.toNat k m.toNat 1 s0 [] none r hk hpre hr hstop
  rwa [Nat.add_comm 1 k] at h

theorem runLoop_exhaust {σ : Type} (step : σ → Except SolveError (StepRes σ))
    (m : ℤ) (s0 : σ) (r : StepRes σ) (hm : 1 ≤ m)
    (hpre : ∀ j, j < m.toNat → isOkE (stepAt step s0 j) = true ∧ stopOf (stepAt step s0 j) = false)
    (hr : stepAt step s0 (m.toNat - 1) = .ok r) :
    ∃ tr, runLoop step m s0 = .ok ⟨r.x, r.err, m.toNat, tr⟩ := by
  unfold runLoop
  have hpos : 1 ≤ m.toNat := by omega
  have hfe : m.toNat - 1 + 1 = m.toNat := by omega
  have h := go_exhaust step m.toNat (m.toNat - 1) 1 s0 [] none r
    (by rw [hfe]; exact hpre) hr
  rwa [hfe] at h

theorem runLoop_error {σ : Type} (step : σ → Except SolveError (StepRes σ))
    (m : ℤ) (s0 : σ) (k : ℕ) (e : SolveError)
    (hk : k < m.toNat)
    (hpre : ∀ j, j < k → isOkE (stepAt step s0 j) = true ∧ stopOf (stepAt step s0 j) = false)
    (hr : stepAt step s0 k = .error e) :
    runLoop step m s0 = .error e :=
  go_error step m.toNat k m.toNat 1 s0 [] none e hk hpre hr

theorem runLoop_ok_inv {σ : Type} (step : σ → Except SolveError (StepRes σ))
    (m : ℤ) (s0 : σ) (res : SolveResult)
    (h : runLoop step m s0 = .ok res) :
    ∀ j, j + 1 < res.iters →
      isOkE (stepAt step s0 j) = true ∧ stopOf (stepAt step s0 j) = false := by
  intro j hj
  have := go_ok_inv step m.toNat m.toNat 1 s0 [] none res h (by omega) j (by omega)
  exact this

theorem runLoop_rows {σ : Type} (step : σ → Except SolveError (StepRes σ))
    (m : ℤ) (s0 : σ) (res : SolveResult)
    (h : runLoop step m s0 = .ok res) :
    res.rows.length = res.iters ∧
    ∀ j, (hj : j < res.rows.length) → recOf (stepAt step s0 j) j = some (res.rows[j]) := by
  have := go_rows step m.toNat s0 m.toNat s0 [] none res h (by show 0 + 1 + m.toNat = m.toNat + 1; omega) rfl (by intro j hj; simp at hj)
  exact this

theorem runLoop_nonpos {σ : Type} (step : σ → Except SolveError (StepRes σ))
    (m : ℤ) (s0 : σ) (hm : m ≤ 0) :
    runLoop step m s0 = .error .unboundLocal := by
  unfold runLoop
  have h0 : m.toNat = 0 := Int.toNat_of_nonpos hm
  rw [h0]
  rfl

theorem runLoop_error_source {σ : Type} (step : σ → Except SolveError (StepRes σ))
    (m : ℤ) (s0 : σ) (e : SolveError)
    (h : runLoop step m s0 = .error e) :
    e = .unboundLocal ∨ ∃ s', step s' = .error e :=
  go_error_source step m.toNat m.toNat 1 s0 [] none e h

/-! ## The spec's convergence criteria, and how each method's stop flag
realises them -/

/-- The spec's residual-checking criterion at one pass:
`|f(x_current)| < tolerance` OR `error_estimate < tolerance`.
A raised pass meets no criterion. -/
def residualMet (f : ℚ → ℚ) (tol : ℚ) {σ : Type} :
    Except SolveError (StepRes σ) → Prop
  | .ok r => |f r.x| < tol ∨ errLt r.err tol
  | .error _ => False

instance residualMet.decidable (f : ℚ → ℚ) (tol : ℚ) {σ : Type}
    (e : Except SolveError (StepRes σ)) : Decidable (residualMet f tol e) :=
  match e with
  | .ok r => inferInstanceAs (Decidable (_ ∨ _))
  | .error _ => isFalse id

/-- The spec's error-only criterion (fixed-point):
`error_estimate < tolerance`, no function value consulted. -/
def errOnlyMet (tol : ℚ) {σ : Type} : Except SolveError (StepRes σ) → Prop
  | .ok r => errLt r.err tol
  | .error _ => False

instance errOnlyMet.decidable (tol : ℚ) {σ : Type}
    (e : Except SolveError (StepRes σ)) : Decidable (errOnlyMet tol e) :=
  match e with
  | .ok r => inferInstanceAs (Decidable (errLt r.err tol))
  | .error _ => isFalse id

theorem isOkE_ok {ε α : Type} {e : Except ε α} (h : isOkE e = true) :
    ∃ r, e = .ok r := by
  cases e with
  | error e => exact Bool.noConfusion h
  | ok r => exact ⟨r, rfl⟩

theorem stepAt_cases {σ : Type} (step : σ → Except SolveError (StepRes σ))
    (s0 : σ) (j : ℕ) :
    (∃ e, stepAt step s0 j = .error e) ∨
    ∃ s, states step s0 j = .ok s ∧ stepAt step s0 j = step s := by
  unfold stepAt
  cases h : states step s0 j with
  | error e => exact Or.inl ⟨e, rfl⟩
  | ok s => exact Or.inr ⟨s, rfl, rfl⟩

theorem stopOf_stepAt_iff {σ : Type} (step : σ → Except SolveError (StepRes σ))
    (P : Except SolveError (StepRes σ) → Prop)
    (hP : ∀ s, stopOf (step s) = true ↔ P (step s))
    (hPe : ∀ e, ¬ P (.error e)) (s0 : σ) (j : ℕ) :
    stopOf (stepAt step s0 j) = true ↔ P (stepAt step s0 j) := by
  rcases stepAt_cases step s0 j with ⟨e, he⟩ | ⟨s, _, he⟩
  · rw [he]
    exact iff_of_false (by simp [stopOf]) (hPe e)
  · rw [he]
    exact hP s

theorem bisStep_stop_iff (f : ℚ → ℚ) (tol : ℚ) (s : BisState) :
    stopOf (bisStep f tol s) = true ↔ residualMet f tol (bisStep f tol s) := by
  simp [bisStep, stopOf, residualMet, errLt]

theorem regStep_stop_iff (f : ℚ → ℚ) (tol : ℚ) (s : RegState) :
    stopOf (regStep f tol s) = true ↔ residualMet f tol (regStep f tol s) := by
  rcases eq_or_ne (s.fb - s.fa) 0 with h | h
  · simp [regStep, h, stopOf, residualMet]
  · cases hc : s.cPrev with
    | none => simp [regStep, h, hc, stopOf, residualMet, errLt, errLtB]
    | some cp => simp [regStep, h, hc, stopOf, residualMet, errLt, errLtB]

theorem secStep_stop_iff (f : ℚ → ℚ) (tol : ℚ) (s : SecState) :
    stopOf (secStep f tol s) = true ↔ residualMet f tol (secStep f tol s) := by
  rcases eq_or_ne (f s.x1 - f s.x0) 0 with h | h
  · simp [secStep, h, stopOf, residualMet]
  · simp [secStep, h, stopOf, residualMet, errLt]

theorem newtStep_stop_iff (f : ℚ → ℚ) (tol : ℚ) (x : ℚ) :
    stopOf (newtStep f tol x) = true ↔ residualMet f tol (newtStep f tol x) := by
  simp only [newtStep]
  by_cases h : numerical_derivative f x = 0
  · rw [if_pos h]
    simp [stopOf, residualMet]
  · rw [if_neg h]
    simp [stopOf, residualMet, errLt]

theorem fixStep_stop_iff (g : ℚ → ℚ) (tol : ℚ) (x : ℚ) :
    stopOf (fixStep g tol x) = true ↔ errOnlyMet tol (fixStep g tol x) := by
  simp [fixStep, stopOf, errOnlyMet, errLt]

theorem modTail_stop_iff (f : ℚ → ℚ) (tol : ℚ) (x fx dfx : ℚ) :
    stopOf (modTail f tol x fx dfx) = true ↔ residualMet f tol (modTail f tol x fx dfx) := by
  simp only [modTail]
  by_cases hd : dfx = 0
  · rw [if_pos hd]
    simp [stopOf, residualMet]
  · rw [if_neg hd]
    simp [stopOf, residualMet, errLt]

theorem modStep_stop_iff (f : ℚ → ℚ) (delta tol : ℚ) (x : ℚ) :
    stopOf (modStep f delta tol x) = true ↔ residualMet f tol (modStep f delta tol x) := by
  simp only [modStep]
  by_cases hx : x ≠ 0
  · rw [if_pos hx]
    by_cases hdx : delta * x = 0
    · rw [if_pos hdx]
      simp [stopOf, residualMet]
    · rw [if_neg hdx]
      exact modTail_stop_iff f tol x (f x) _
  · rw [if_neg hx]
    exact modTail_stop_iff f tol x (f x) _

/-- Shared form of the success criterion: a loop returns at the first pass
whose criterion `P` is met, for any criterion the method's stop flag
realises. -/
theorem runLoop_first_met {σ : Type} (step : σ → Except SolveError (StepRes σ))
    (P : Except SolveError (StepRes σ) → Prop)
    (hP : ∀ s, stopOf (step s) = true ↔ P (step s))
    (hPe : ∀ e, ¬ P (.error e))
    (m : ℤ) (s0 : σ) (k : ℕ)
    (hk : k < m.toNat)
    (hpre : ∀ j, j < k → isOkE (stepAt step s0 j) = true ∧ ¬ P (stepAt step s0 j))
    (hmet : P (stepAt step s0 k)) :
    ∃ res, runLoop step m s0 = .ok res ∧ res.iters = k + 1 ∧
      some res.root = xOf (stepAt step s0 k) ∧
      errOf (stepAt step s0 k) = some res.err := by
  have hok : ∃ r, stepAt step s0 k = .ok r := by
    rcases stepAt_cases step s0 k with ⟨e, he⟩ | ⟨s, _, he⟩
    · rw [he] at hmet
      exact absurd hmet (hPe e)
    · rw [he]
      cases hr : step s with
      | error e =>
        rw [he, hr] at hmet
        exact absurd hmet (hPe e)
      | ok r => exact ⟨r, rfl⟩
  obtain ⟨r, hr⟩ := hok
  have hstop : r.stop = true := by
    have := (stopOf_stepAt_iff step P hP hPe s0 k).mpr hmet
    rw [hr] at this
    exact this
  have hpre' : ∀ j, j < k →
      isOkE (stepAt step s0 j) = true ∧ stopOf (stepAt step s0 j) = false := by
    intro j hj
    refine ⟨(hpre j hj).1, ?_⟩
    have hnot := (hpre j hj).2
    have := (stopOf_stepAt_iff step P hP hPe s0 j).not.mpr hnot
    exact Bool.not_eq_true _ ▸ eq_false_of_ne_true (by intro hh; exact this hh)
  obtain ⟨tr, htr⟩ := runLoop_first_stop step m s0 k r hk hpre' hr hstop
  exact ⟨⟨r.x, r.err, k + 1, tr⟩, htr, rfl, by rw [hr]; rfl, by rw [hr]; rfl⟩

/-- Shared form of cap exhaustion: if every pass runs and none meets the
criterion, the loop returns normally with the last pass's estimate and
error and iteration count `max_iter`. -/
theorem runLoop_none_met {σ : Type} (step : σ → Except SolveError (StepRes σ))
    (P : Except SolveError (StepRes σ) → Prop)
    (hP : ∀ s, stopOf (step s) = true ↔ P (step s))
    (hPe : ∀ e, ¬ P (.error e))
    (m : ℤ) (s0 : σ) (hm : 1 ≤ m)
    (hpre : ∀ j, j < m.toNat → isOkE (stepAt step s0 j) = true ∧ ¬ P (stepAt step s0 j)) :
    ∃ res, runLoop step m s0 = .ok res ∧ (res.iters : ℤ) = m ∧
      some res.root = xOf (stepAt step s0 (m.toNat - 1)) ∧
      errOf (stepAt step s0 (m.toNat - 1)) = some res.err := by
  have hlast : m.toNat - 1 < m.toNat := by omega
  obtain ⟨r, hr⟩ := isOkE_ok (hpre (m.toNat - 1) hlast).1
  have hpre' : ∀ j, j < m.toNat →
      isOkE (stepAt step s0 j) = true ∧ stopOf (stepAt step s0 j) = false := by
    intro j hj
    refine ⟨(hpre j hj).1, ?_⟩
    have hnot := (hpre j hj).2
    have := (stopOf_stepAt_iff step P hP hPe s0 j).not.mpr hnot
    exact Bool.not_eq_true _ ▸ eq_false_of_ne_true (by intro hh; exact this hh)
  obtain ⟨tr, htr⟩ := runLoop_exhaust step m s0 r hm hpre' hr
  refine ⟨⟨r.x, r.err, m.toNat, tr⟩, htr, ?_, by rw [hr]; rfl, by rw [hr]; rfl⟩
  show ((m.toNat : ℤ)) = m
  omega

/-! ## Method-level unfolding helpers -/

theorem bisection_eq_runLoop (f : ℚ → ℚ) (a b tol : ℚ) (m : ℤ)
    (h : f a * f b ≤ 0) :
    bisection f a b tol m = runLoop (bisStep f tol) m ⟨a, b, f a, f b⟩ := by
  show (if f a * f b > 0 then Except.error SolveError.invalidBracket
        else runLoop (bisStep f tol) m ⟨a, b, f a, f b⟩) = _
  rw [if_neg (not_lt.mpr h)]

theorem bisection_invalid (f : ℚ → ℚ) (a b tol : ℚ) (m : ℤ)
    (h : f a * f b > 0) :
    bisection f a b tol m = .error .invalidBracket := by
  show (if f a * f b > 0 then Except.error SolveError.invalidBracket
        else runLoop (bisStep f tol) m ⟨a, b, f a, f b⟩) = _
  rw [if_pos h]

theorem regula_falsi_eq_runLoop (f : ℚ → ℚ) (a b tol : ℚ) (m : ℤ)
    (h : f a * f b ≤ 0) :
    regula_falsi f a b tol m = runLoop (regStep f tol) m ⟨a, b, f a, f b, none⟩ := by
  show (if f a * f b > 0 then Except.error SolveError.invalidBracket
        else runLoop (regStep f tol) m ⟨a, b, f a, f b, none⟩) = _
  rw [if_neg (not_lt.mpr h)]

theorem regula_falsi_invalid (f : ℚ → ℚ) (a b tol : ℚ) (m : ℤ)
    (h : f a * f b > 0) :
    regula_falsi f a b tol m = .error .invalidBracket := by
  show (if f a * f b > 0 then Except.error SolveError.invalidBracket
        else runLoop (regStep f tol) m ⟨a, b, f a, f b, none⟩) = _
  rw [if_pos h]

theorem regStep_not_invalid (f : ℚ → ℚ) (tol : ℚ) (s : RegState) :
    regStep f tol s ≠ .error .invalidBracket := by
  simp only [regStep]
  by_cases h : s.fb - s.fa = 0
  · rw [if_pos h]
    intro hh
    exact SolveError.noConfusion (Except.error.inj hh)
  · rw [if_neg h]
    intro hh
    exact Except.noConfusion hh

theorem secStep_zero_denom (f : ℚ → ℚ) (tol : ℚ) (s : SecState)
    (h : f s.x1 - f s.x0 = 0) :
    secStep f tol s = .error .zeroDenominator := by
  simp only [secStep]
  rw [if_pos h]

theorem stopOf_false_of_not_met {σ : Type} (step : σ → Except SolveError (StepRes σ))
    (P : Except SolveError (StepRes σ) → Prop)
    (hP : ∀ s, stopOf (step s) = true ↔ P (step s))
    (hPe : ∀ e, ¬ P (.error e)) (s0 : σ) (j : ℕ)
    (hnot : ¬ P (stepAt step s0 j)) :
    stopOf (stepAt step s0 j) = false := by
  have := (stopOf_stepAt_iff step P hP hPe s0 j).not.mpr hnot
  exact Bool.not_eq_true _ ▸ eq_false_of_ne_true (by intro hh; exact this hh)

/-- Like `runLoop_error`, with the "no earlier pass met the criterion"
hypothesis expressed through the criterion. -/
theorem runLoop_met_error {σ : Type} (step : σ → Except SolveError (StepRes σ))
    (P : Except SolveError (StepRes σ) → Prop)
    (hP : ∀ s, stopOf (step s) = true ↔ P (step s))
    (hPe : ∀ e, ¬ P (.error e))
    (m : ℤ) (s0 : σ) (k : ℕ) (e : SolveError)
    (hk : k < m.toNat)
    (hpre : ∀ j, j < k → isOkE (stepAt step s0 j) = true ∧ ¬ P (stepAt step s0 j))
    (he : stepAt step s0 k = .error e) :
    runLoop step m s0 = .error e := by
  refine runLoop_error step m s0 k e hk (fun j hj => ⟨(hpre j hj).1, ?_⟩) he
  exact stopOf_false_of_not_met step P hP hPe s0 j (hpre j hj).2

/-- The trace shape C8 asserts: one record per executed pass (its length
is the iteration count) and 1-based chronological indices. -/
def traceIndexed (res : SolveResult) : Prop :=
  res.rows.length = res.iters ∧
  ∀ j, (hj : j < res.rows.length) → (res.rows[j]).idx = j + 1

theorem runLoop_traceIndexed {σ : Type} (step : σ → Except SolveError (StepRes σ))
    (m : ℤ) (s0 : σ) (res : SolveResult)
    (h : runLoop step m s0 = .ok res) : traceIndexed res := by
  obtain ⟨hlen, hrec⟩ := runLoop_rows step m s0 res h
  refine ⟨hlen, ?_⟩
  intro j hj
  have hj' := hrec j hj
  rcases stepAt_cases step s0 j with ⟨e, he⟩ | ⟨s, _, he⟩
  · rw [he] at hj'
    exact Option.noConfusion hj'
  · rw [he] at hj'
    cases hr : step s with
    | error e =>
      rw [hr] at hj'
      exact Option.noConfusion hj'
    | ok r =>
      rw [hr] at hj'
      have : (⟨j+1, r.x, r.fx, r.err⟩ : IterationRecord) = res.rows[j] :=
        Option.some.inj hj'
      rw [← this]

/-! ## Python call semantics: which parameters have defaults -/

/-- Failure of the call itself (Python `TypeError` for a missing required
positional argument). -/
inductive CallError where
  | missingRequiredArgument
  deriving DecidableEq

/-- Python call protocol of `bisection(f,a,b,tol,max_iter=100)`: `tol` is
required, `max_iter` defaults to 100. -/
def bisection_call (f : ℚ → ℚ) (a b : ℚ) (tol? : Option ℚ) (mi? : Option ℤ) :
    Except CallError (Except SolveError SolveResult) :=
  match tol? with
  | none => .error .missingRequiredArgument
  | some tol => .ok (bisection f a b tol (mi?.getD 100))

/-- Python call protocol of `regula_falsi(f,a,b,tol,max_iter=100)`. -/
def regula_falsi_call (f : ℚ → ℚ) (a b : ℚ) (tol? : Option ℚ) (mi? : Option ℤ) :
    Except CallError (Except SolveError SolveResult) :=
  match tol? with
  | none => .error .missingRequiredArgument
  | some tol => .ok (regula_falsi f a b tol (mi?.getD 100))

/-- Python call protocol of `secant(f,x0,x1,tol,max_iter=100)`. -/
def secant_call (f : ℚ → ℚ) (x0 x1 : ℚ) (tol? : Option ℚ) (mi? : Option ℤ) :
    Except CallError (Except SolveError SolveResult) :=
  match tol? with
  | none => .error .missingRequiredArgument
  | some tol => .ok (secant f x0 x1 tol (mi?.getD 100))

/-- Python call protocol of `newton_raphson(f,x0,tol,max_iter=100)`. -/
def newton_raphson_call (f : ℚ → ℚ) (x0 : ℚ) (tol? : Option ℚ) (mi? : Option ℤ) :
    Except CallError (Except SolveError SolveResult) :=
  match tol? with
  | none => .error .missingRequiredArgument
  | some tol => .ok (newton_raphson f x0 tol (mi?.getD 100))

/-- Python call protocol of `fixed_point_iteration(g,x0,tol,max_iter=100)`. -/
def fixed_point_iteration_call (g : ℚ → ℚ) (x0 : ℚ) (tol? : Option ℚ)
    (mi? : Option ℤ) : Except CallError (Except SolveError SolveResult) :=
  match tol? with
  | none => .error .missingRequiredArgument
  | some tol => .ok (fixed_point_iteration g x0 tol (mi?.getD 100))

/-- Python call protocol of `modified_secant(f,x0,delta,tol,max_iter=100)`:
`delta` and `tol` are both required. -/
def modified_secant_call (f : ℚ → ℚ) (x0 : ℚ) (delta? tol? : Option ℚ)
    (mi? : Option ℤ) : Except CallError (Except SolveError SolveResult) :=
  match delta?, tol? with
  | some delta, some tol => .ok (modified_secant f x0 delta tol (mi?.getD 100))
  | _, _ => .error .missingRequiredArgument

/-! ## Claim C4 -/

/-- C4 counterexample: tolerance has NO default in the method functions —
omitting it is a missing-argument failure, not a run with tolerance
`1e-6`; likewise `delta` for modified secant.  This refutes the claim
that every method function defaults tolerance to 1e-6 and modified
secant defaults delta to 1e-3. -/
theorem C4_counterexample :
    bisection_call (fun x => x) (-1) 1 none none = .error .missingRequiredArgument ∧
    bisection_call (fun x => x) (-1) 1 none none ≠
      .ok (bisection (fun x => x) (-1) 1 (1/1000000) 100) ∧
    modified_secant_call (fun x => x) 1 none (some (1/1000000)) none =
      .error .missingRequiredArgument := by
  refine ⟨rfl, ?_, rfl⟩
  intro h
  exact Except.noConfusion h

/-- C4 (amended): every method function defaults only `max_iterations`
(to 100) when the caller omits it; tolerance is a required argument of
every method function, and the perturbation fraction `delta` is a
required argument of modified secant — omitting either fails the call
with a missing-argument error (the 1e-6 and 1e-3 defaults live in the
front ends, not in the method functions). -/
theorem C4_amended (f g : ℚ → ℚ) (a b x0 x1 delta tol : ℚ) (mi? : Option ℤ) :
    bisection_call f a b (some tol) none = .ok (bisection f a b tol 100) ∧
    regula_falsi_call f a b (some tol) none = .ok (regula_falsi f a b tol 100) ∧
    secant_call f x0 x1 (some tol) none = .ok (secant f x0 x1 tol 100) ∧
    newton_raphson_call f x0 (some tol) none = .ok (newton_raphson f x0 tol 100) ∧
    fixed_point_iteration_call g x0 (some tol) none =
      .ok (fixed_point_iteration g x0 tol 100) ∧
    modified_secant_call f x0 (some delta) (some tol) none =
      .ok (modified_secant f x0 delta tol 100) ∧
    bisection_call f a b none mi? = .error .missingRequiredArgument ∧
    regula_falsi_call f a b none mi? = .error .missingRequiredArgument ∧
    secant_call f x0 x1 none mi? = .error .missingRequiredArgument ∧
    newton_raphson_call f x0 none mi? = .error .missingRequiredArgument ∧
    fixed_point_iteration_call g x0 none mi? = .error .missingRequiredArgument ∧
    modified_secant_call f x0 none (some tol) mi? = .error .missingRequiredArgument :=
  ⟨rfl, rfl, rfl, rfl, rfl, rfl, rfl, rfl, rfl, rfl, rfl, rfl⟩

/-! ## Claim C9 -/

/-- C9: with `max_iterations ≤ 0` no method returns a `SolveResult`: the
loop body never runs and the final return reads never-assigned variables,
so (once past bisection's and regula falsi's bracket check, which can
preempt it) every method fails with the unbound-variable error. -/
theorem C9_nonpos_cap_unbound (f g : ℚ → ℚ) (a b x0 x1 delta tol : ℚ)
    (m : ℤ) (hm : m ≤ 0) :
    (f a * f b ≤ 0 → bisection f a b tol m = .error .unboundLocal) ∧
    (f a * f b ≤ 0 → regula_falsi f a b tol m = .error .unboundLocal) ∧
    secant f x0 x1 tol m = .error .unboundLocal ∧
    newton_raphson f x0 tol m = .error .unboundLocal ∧
    fixed_point_iteration g x0 tol m = .error .unboundLocal ∧
    modified_secant f x0 delta tol m = .error .unboundLocal ∧
    isOkE (bisection f a b tol m) = false ∧
    isOkE (regula_falsi f a b tol m) = false := by
  refine ⟨?_, ?_, ?_, ?_, ?_, ?_, ?_, ?_⟩
  · intro h
    rw [bisection_eq_runLoop f a b tol m h]
    exact runLoop_nonpos _ m _ hm
  · intro h
    rw [regula_falsi_eq_runLoop f a b tol m h]
    exact runLoop_nonpos _ m _ hm
  · exact runLoop_nonpos _ m _ hm
  · exact runLoop_nonpos _ m _ hm
  · exact runLoop_nonpos _ m _ hm
  · exact runLoop_nonpos _ m _ hm
  · by_cases hbr : f a * f b > 0
    · rw [bisection_invalid f a b tol m hbr]
      rfl
    · rw [bisection_eq_runLoop f a b tol m (not_lt.mp hbr),
        runLoop_nonpos _ m _ hm]
      rfl
  · by_cases hbr : f a * f b > 0
    · rw [regula_falsi_invalid f a b tol m hbr]
      rfl
    · rw [regula_falsi_eq_runLoop f a b tol m (not_lt.mp hbr),
        runLoop_nonpos _ m _ hm]
      rfl

/-- C9 witness at `max_iterations = 0`. -/
theorem C9_witness :
    secant (fun x => x) 0 1 1 0 = .error .unboundLocal ∧
    bisection (fun x => x) (-1) 1 1 0 = .error .unboundLocal := by
  have h := C9_nonpos_cap_unbound (fun x => x) (fun x => x) (-1) 1 0 1 1 1 0
    (by decide)
  exact ⟨h.2.2.1, h.1 (by decide)⟩

/-! ## Claim C10 -/

/-- C10: every method is a pure function of the supplied function(s) and
scalars — two runs with extensionally identical inputs return identical
results (same final estimate, error, iteration count and trace).  In the
embedding there is no hidden state, so equality of inputs gives equality
of whole `SolveResult`s. -/
theorem C10_deterministic (f₁ f₂ g₁ g₂ : ℚ → ℚ) (a b x0 x1 delta tol : ℚ)
    (m : ℤ) (hf : ∀ x, f₁ x = f₂ x) (hg : ∀ x, g₁ x = g₂ x) :
    bisection f₁ a b tol m = bisection f₂ a b tol m ∧
    regula_falsi f₁ a b tol m = regula_falsi f₂ a b tol m ∧
    secant f₁ x0 x1 tol m = secant f₂ x0 x1 tol m ∧
    newton_raphson f₁ x0 tol m = newton_raphson f₂ x0 tol m ∧
    fixed_point_iteration g₁ x0 tol m = fixed_point_iteration g₂ x0 tol m ∧
    modified_secant f₁ x0 delta tol m = modified_secant f₂ x0 delta tol m := by
  have h1 : f₁ = f₂ := funext hf
  have h2 : g₁ = g₂ := funext hg
  subst h1
  subst h2
  exact ⟨rfl, rfl, rfl, rfl, rfl, rfl⟩

/-- C10 witness: two syntactically different but extensionally equal
functions give identical runs. -/
theorem C10_witness :
    newton_raphson (fun x => x + x) 1 (1/2) 3 =
      newton_raphson (fun x => 2 * x) 1 (1/2) 3 ∧
    bisection (fun x => x + x) (-1) 1 (1/2) 3 =
      bisection (fun x => 2 * x) (-1) 1 (1/2) 3 := by
  have h := C10_deterministic (fun x => x + x) (fun x => 2 * x)
    (fun x => x + x) (fun x => 2 * x) (-1) 1 1 1 1 (1/2) 3
    (fun x => by ring) (fun x => by ring)
  exact ⟨h.2.2.2.1, h.1⟩

/-! ## Claim C3 -/

/-- C3: bisection and regula falsi raise the invalid-bracket error
exactly when `f(a)*f(b) > 0`; a product of zero is accepted and the
call proceeds past the check. -/
theorem C3_bracket_iff (f : ℚ → ℚ) (a b tol : ℚ) (m : ℤ) :
    (bisection f a b tol m = .error .invalidBracket ↔ f a * f b > 0) ∧
    (regula_falsi f a b tol m = .error .invalidBracket ↔ f a * f b > 0) := by
  constructor
  · constructor
    · intro h
      by_contra hbr
      rw [bisection_eq_runLoop f a b tol m (not_lt.mp hbr)] at h
      rcases runLoop_error_source _ m _ _ h with h1 | ⟨s', hs'⟩
      · exact SolveError.noConfusion h1
      · exact Except.noConfusion hs'
    · exact bisection_invalid f a b tol m
  · constructor
    · intro h
      by_contra hbr
      rw [regula_falsi_eq_runLoop f a b tol m (not_lt.mp hbr)] at h
      rcases runLoop_error_source _ m _ _ h with h1 | ⟨s', hs'⟩
      · exact SolveError.noConfusion h1
      · exact regStep_not_invalid f tol s' hs'
    · exact regula_falsi_invalid f a b tol m

/-! ## Claim C8 -/

/-- C8: whenever a method returns a result, the trace holds exactly one
record per executed loop pass — its length equals the returned iteration
count — and the records carry indices 1, 2, …, n in order. -/
theorem C8_trace_shape (f g : ℚ → ℚ) (a b x0 x1 delta tol : ℚ) (m : ℤ) :
    (∀ res, bisection f a b tol m = .ok res → traceIndexed res) ∧
    (∀ res, regula_falsi f a b tol m = .ok res → traceIndexed res) ∧
    (∀ res, secant f x0 x1 tol m = .ok res → traceIndexed res) ∧
    (∀ res, newton_raphson f x0 tol m = .ok res → traceIndexed res) ∧
    (∀ res, fixed_point_iteration g x0 tol m = .ok res → traceIndexed res) ∧
    (∀ res, modified_secant f x0 delta tol m = .ok res → traceIndexed res) := by
  refine ⟨?_, ?_, ?_, ?_, ?_, ?_⟩
  · intro res h
    by_cases hbr : f a * f b > 0
    · rw [bisection_invalid f a b tol m hbr] at h
      exact Except.noConfusion h
    · rw [bisection_eq_runLoop f a b tol m (not_lt.mp hbr)] at h
      exact runLoop_traceIndexed _ m _ res h
  · intro res h
    by_cases hbr : f a * f b > 0
    · rw [regula_falsi_invalid f a b tol m hbr] at h
      exact Except.noConfusion h
    · rw [regula_falsi_eq_runLoop f a b tol m (not_lt.mp hbr)] at h
      exact runLoop_traceIndexed _ m _ res h
  · intro res h
    exact runLoop_traceIndexed _ m _ res h
  · intro res h
    exact runLoop_traceIndexed _ m _ res h
  · intro res h
    exact runLoop_traceIndexed _ m _ res h
  · intro res h
    exact runLoop_traceIndexed _ m _ res h

/-- C8 witness: a concrete cap-exhausted fixed-point run whose trace has
records 1, 2, 3. -/
theorem C8_witness :
    traceIndexed ⟨8, some 4, 3,
      [⟨1, 2, none, some 1⟩, ⟨2, 4, none, some 2⟩, ⟨3, 8, none, some 4⟩]⟩ :=
  (C8_trace_shape (fun x => x) (fun x => 2 * x) 0 1 1 1 1 (1/10) 3).2.2.2.2.1
    _ (by decide)

/-! ## Claim C7 -/

/-- C7: secant raises the zero-denominator error on any iteration it
reaches where `f(x1) - f(x0)` is exactly zero; otherwise the pass
computes `x2 = x1 − f(x1)(x1−x0)/(f(x1)−f(x0))` with error `|x2 − x1|`;
in particular `x0 = x1` raises on the first iteration. -/
theorem C7_secant_zero_denominator :
    (∀ (f : ℚ → ℚ) (x0 x1 tol : ℚ) (m : ℤ) (k : ℕ) (s : SecState),
      k < m.toNat →
      (∀ j, j < k → isOkE (stepAt (secStep f tol) ⟨x0, x1⟩ j) = true ∧
        ¬ residualMet f tol (stepAt (secStep f tol) ⟨x0, x1⟩ j)) →
      states (secStep f tol) ⟨x0, x1⟩ k = .ok s →
      f s.x1 - f s.x0 = 0 →
      secant f x0 x1 tol m = .error .zeroDenominator) ∧
    (∀ (f : ℚ → ℚ) (tol : ℚ) (s : SecState), f s.x1 - f s.x0 ≠ 0 →
      ∃ r, secStep f tol s = .ok r ∧
        r.x = s.x1 - f s.x1 * (s.x1 - s.x0) / (f s.x1 - f s.x0) ∧
        r.err = some (|r.x - s.x1|)) ∧
    (∀ (f : ℚ → ℚ) (x0 tol : ℚ) (m : ℤ), 1 ≤ m →
      secant f x0 x0 tol m = .error .zeroDenominator) := by
  have hmain : ∀ (f : ℚ → ℚ) (x0 x1 tol : ℚ) (m : ℤ) (k : ℕ) (s : SecState),
      k < m.toNat →
      (∀ j, j < k → isOkE (stepAt (secStep f tol) ⟨x0, x1⟩ j) = true ∧
        ¬ residualMet f tol (stepAt (secStep f tol) ⟨x0, x1⟩ j)) →
      states (secStep f tol) ⟨x0, x1⟩ k = .ok s →
      f s.x1 - f s.x0 = 0 →
      secant f x0 x1 tol m = .error .zeroDenominator := by
    intro f x0 x1 tol m k s hk hpre hst hden
    show runLoop (secStep f tol) m ⟨x0, x1⟩ = _
    refine runLoop_met_error (secStep f tol) (residualMet f tol)
      (secStep_stop_iff f tol) (fun e => id) m ⟨x0, x1⟩ k _ hk hpre ?_
    rw [stepAt_eq_of_states _ hst]
    exact secStep_zero_denom f tol s hden
  refine ⟨hmain, ?_, ?_⟩
  · intro f tol s h
    have heq : secStep f tol s = .ok
        { x := s.x1 - f s.x1 * (s.x1 - s.x0) / (f s.x1 - f s.x0),
          fx := some (f (s.x1 - f s.x1 * (s.x1 - s.x0) / (f s.x1 - f s.x0))),
          err := some (|s.x1 - f s.x1 * (s.x1 - s.x0) / (f s.x1 - f s.x0) - s.x1|),
          stop := decide (|f (s.x1 - f s.x1 * (s.x1 - s.x0) / (f s.x1 - f s.x0))| < tol)
            || decide (|s.x1 - f s.x1 * (s.x1 - s.x0) / (f s.x1 - f s.x0) - s.x1| < tol),
          next := ⟨s.x1, s.x1 - f s.x1 * (s.x1 - s.x0) / (f s.x1 - f s.x0)⟩ } := by
      simp only [secStep]
      rw [if_neg h]
    exact ⟨_, heq, rfl, rfl⟩
  · intro f x0 tol m hm
    refine hmain f x0 x0 tol m 0 ⟨x0, x0⟩ (by omega)
      (fun j hj => absurd hj (Nat.not_lt_zero j)) rfl ?_
    show f x0 - f x0 = 0
    exact sub_self _

/-- C7 witness: a constant function raises on the first pass, equal seeds
raise on the first pass, and a concrete non-degenerate pass computes the
secant update. -/
theorem C7_witness :
    secant (fun _ => 1) 0 1 (1/2) 2 = .error .zeroDenominator ∧
    secant (fun x => x) 1 1 1 3 = .error .zeroDenominator ∧
    ∃ r, secStep (fun x => x) 1 ⟨0, 1⟩ = .ok r ∧
      r.x = 1 - 1 * (1 - 0) / (1 - 0) ∧ r.err = some (|r.x - 1|) := by
  refine ⟨?_, ?_, ?_⟩
  · exact C7_secant_zero_denominator.1 (fun _ => 1) 0 1 (1/2) 2 0 ⟨0, 1⟩
      (by decide) (fun j hj => absurd hj (Nat.not_lt_zero j)) rfl (by decide)
  · exact C7_secant_zero_denominator.2.2 (fun x => x) 1 1 3 (by decide)
  · exact C7_secant_zero_denominator.2.1 (fun x => x) 1 ⟨0, 1⟩ (by decide)

/-! ## Claim C1 -/

/-- C1: the five residual-checking methods return successfully at the
first iteration whose pass satisfies `|f(x_current)| < tol ∨ err < tol`
(`residualMet`), while fixed-point iteration returns at the first
iteration with `err < tol` only (`errOnlyMet`) and never records or
consults a function value (`fx = none` on every pass). -/
theorem C1_first_criterion_iteration :
    (∀ (f : ℚ → ℚ) (a b tol : ℚ) (m : ℤ) (k : ℕ),
      f a * f b ≤ 0 → k < m.toNat →
      (∀ j, j < k → isOkE (stepAt (bisStep f tol) ⟨a, b, f a, f b⟩ j) = true ∧
        ¬ residualMet f tol (stepAt (bisStep f tol) ⟨a, b, f a, f b⟩ j)) →
      residualMet f tol (stepAt (bisStep f tol) ⟨a, b, f a, f b⟩ k) →
      ∃ res, bisection f a b tol m = .ok res ∧ res.iters = k + 1 ∧
        some res.root = xOf (stepAt (bisStep f tol) ⟨a, b, f a, f b⟩ k)) ∧
    (∀ (f : ℚ → ℚ) (a b tol : ℚ) (m : ℤ) (k : ℕ),
      f a * f b ≤ 0 → k < m.toNat →
      (∀ j, j < k → isOkE (stepAt (regStep f tol) ⟨a, b, f a, f b, none⟩ j) = true ∧
        ¬ residualMet f tol (stepAt (regStep f tol) ⟨a, b, f a, f b, none⟩ j)) →
      residualMet f tol (stepAt (regStep f tol) ⟨a, b, f a, f b, none⟩ k) →
      ∃ res, regula_falsi f a b tol m = .ok res ∧ res.iters = k + 1 ∧
        some res.root = xOf (stepAt (regStep f tol) ⟨a, b, f a, f b, none⟩ k)) ∧
    (∀ (f : ℚ → ℚ) (x0 x1 tol : ℚ) (m : ℤ) (k : ℕ),
      k < m.toNat →
      (∀ j, j < k → isOkE (stepAt (secStep f tol) ⟨x0, x1⟩ j) = true ∧
        ¬ residualMet f tol (stepAt (secStep f tol) ⟨x0, x1⟩ j)) →
      residualMet f tol (stepAt (secStep f tol) ⟨x0, x1⟩ k) →
      ∃ res, secant f x0 x1 tol m = .ok res ∧ res.iters = k + 1 ∧
        some res.root = xOf (stepAt (secStep f tol) ⟨x0, x1⟩ k)) ∧
    (∀ (f : ℚ → ℚ) (x0 tol : ℚ) (m : ℤ) (k : ℕ),
      k < m.toNat →
      (∀ j, j < k → isOkE (stepAt (newtStep f tol) x0 j) = true ∧
        ¬ residualMet f tol (stepAt (newtStep f tol) x0 j)) →
      residualMet f tol (stepAt (newtStep f tol) x0 k) →
      ∃ res, newton_raphson f x0 tol m = .ok res ∧ res.iters = k + 1 ∧
        some res.root = xOf (stepAt (newtStep f tol) x0 k)) ∧
    (∀ (f : ℚ → ℚ) (x0 delta tol : ℚ) (m : ℤ) (k : ℕ),
      k < m.toNat →
      (∀ j, j < k → isOkE (stepAt (modStep f delta tol) x0 j) = true ∧
        ¬ residualMet f tol (stepAt (modStep f delta tol) x0 j)) →
      residualMet f tol (stepAt (modStep f delta tol) x0 k) →
      ∃ res, modified_secant f x0 delta tol m = .ok res ∧ res.iters = k + 1 ∧
        some res.root = xOf (stepAt (modStep f delta tol) x0 k)) ∧
    (∀ (g : ℚ → ℚ) (x0 tol : ℚ) (m : ℤ) (k : ℕ),
      k < m.toNat →
      (∀ j, j < k → isOkE (stepAt (fixStep g tol) x0 j) = true ∧
        ¬ errOnlyMet tol (stepAt (fixStep g tol) x0 j)) →
      errOnlyMet tol (stepAt (fixStep g tol) x0 k) →
      ∃ res, fixed_point_iteration g x0 tol m = .ok res ∧ res.iters = k + 1 ∧
        some res.root = xOf (stepAt (fixStep g tol) x0 k)) ∧
    (∀ (g : ℚ → ℚ) (tol x : ℚ) (r : StepRes ℚ),
      fixStep g tol x = .ok r → r.fx = none) := by
  refine ⟨?_, ?_, ?_, ?_, ?_, ?_, ?_⟩
  · intro f a b tol m k hbr hk hpre hmet
    rw [bisection_eq_runLoop f a b tol m hbr]
    obtain ⟨res, h1, h2, h3, _⟩ := runLoop_first_met (bisStep f tol)
      (residualMet f tol) (bisStep_stop_iff f tol) (fun e => id)
      m ⟨a, b, f a, f b⟩ k hk hpre hmet
    exact ⟨res, h1, h2, h3⟩
  · intro f a b tol m k hbr hk hpre hmet
    rw [regula_falsi_eq_runLoop f a b tol m hbr]
    obtain ⟨res, h1, h2, h3, _⟩ := runLoop_first_met (regStep f tol)
      (residualMet f tol) (regStep_stop_iff f tol) (fun e => id)
      m ⟨a, b, f a, f b, none⟩ k hk hpre hmet
    exact ⟨res, h1, h2, h3⟩
  · intro f x0 x1 tol m k hk hpre hmet
    obtain ⟨res, h1, h2, h3, _⟩ := runLoop_first_met (secStep f tol)
      (residualMet f tol) (secStep_stop_iff f tol) (fun e => id)
      m ⟨x0, x1⟩ k hk hpre hmet
    exact ⟨res, h1, h2, h3⟩
  · intro f x0 tol m k hk hpre hmet
    obtain ⟨res, h1, h2, h3, _⟩ := runLoop_first_met (newtStep f tol)
      (residualMet f tol) (newtStep_stop_iff f tol) (fun e => id)
      m x0 k hk hpre hmet
    exact ⟨res, h1, h2, h3⟩
  · intro f x0 delta tol m k hk hpre hmet
    obtain ⟨res, h1, h2, h3, _⟩ := runLoop_first_met (modStep f delta tol)
      (residualMet f tol) (modStep_stop_iff f delta tol) (fun e => id)
      m x0 k hk hpre hmet
    exact ⟨res, h1, h2, h3⟩
  · intro g x0 tol m k hk hpre hmet
    obtain ⟨res, h1, h2, h3, _⟩ := runLoop_first_met (fixStep g tol)
      (errOnlyMet tol) (fixStep_stop_iff g tol) (fun e => id)
      m x0 k hk hpre hmet
    exact ⟨res, h1, h2, h3⟩
  · intro g tol x r h
    have h' : Except.ok (ε := SolveError)
        { x := g x, fx := none, err := some (|g x - x|),
          stop := decide (|g x - x| < tol), next := g x } = .ok r := h
    have h2 := Except.ok.inj h'
    rw [← h2]

/-- C1 witness: concrete runs of all six methods stopping at the first
iteration that meets the method's criterion. -/
theorem C1_witness :
    (∃ res, bisection (fun x => x - 1) 0 4 2 5 = .ok res ∧ res.iters = 1 ∧
      some res.root = some 2) ∧
    (∃ res, regula_falsi (fun x => x) (-1) 1 (1/2) 5 = .ok res ∧ res.iters = 1 ∧
      some res.root = some 0) ∧
    (∃ res, secant (fun x => x) 0 1 (1/2) 5 = .ok res ∧ res.iters = 1 ∧
      some res.root = some 0) ∧
    (∃ res, newton_raphson (fun x => x) 1 2 5 = .ok res ∧ res.iters = 1 ∧
      some res.root = some 0) ∧
    (∃ res, modified_secant (fun x => x) 1 1 (1/2) 5 = .ok res ∧ res.iters = 1 ∧
      some res.root = some 0) ∧
    (∃ res, fixed_point_iteration (fun x => x / 2) 1 1 5 = .ok res ∧
      res.iters = 1 ∧ some res.root = some (1/2)) := by
  refine ⟨?_, ?_, ?_, ?_, ?_, ?_⟩
  · exact C1_first_criterion_iteration.1 (fun x => x - 1) 0 4 2 5 0
      (by decide) (by decide) (fun j hj => absurd hj (Nat.not_lt_zero j)) (by decide)
  · exact C1_first_criterion_iteration.2.1 (fun x => x) (-1) 1 (1/2) 5 0
      (by decide) (by decide) (fun j hj => absurd hj (Nat.not_lt_zero j)) (by decide)
  · exact C1_first_criterion_iteration.2.2.1 (fun x => x) 0 1 (1/2) 5 0
      (by decide) (fun j hj => absurd hj (Nat.not_lt_zero j)) (by decide)
  · exact C1_first_criterion_iteration.2.2.2.1 (fun x => x) 1 2 5 0
      (by decide) (fun j hj => absurd hj (Nat.not_lt_zero j)) (by decide)
  · exact C1_first_criterion_iteration.2.2.2.2.1 (fun x => x) 1 1 (1/2) 5 0
      (by decide) (fun j hj => absurd hj (Nat.not_lt_zero j)) (by decide)
  · exact C1_first_criterion_iteration.2.2.2.2.2.1 (fun x => x / 2) 1 1 5 0
      (by decide) (fun j hj => absurd hj (Nat.not_lt_zero j)) (by decide)

/-! ## Claim C2 -/

/-- C2: when every one of the `max_iterations ≥ 1` passes executes and
none meets its method's convergence criterion, every method returns
normally with the last computed estimate, the last computed error, and
iteration count equal to `max_iterations`. -/
theorem C2_cap_exhaustion :
    (∀ (f : ℚ → ℚ) (a b tol : ℚ) (m : ℤ),
      f a * f b ≤ 0 → 1 ≤ m →
      (∀ j, j < m.toNat → isOkE (stepAt (bisStep f tol) ⟨a, b, f a, f b⟩ j) = true ∧
        ¬ residualMet f tol (stepAt (bisStep f tol) ⟨a, b, f a, f b⟩ j)) →
      ∃ res, bisection f a b tol m = .ok res ∧ (res.iters : ℤ) = m ∧
        some res.root = xOf (stepAt (bisStep f tol) ⟨a, b, f a, f b⟩ (m.toNat - 1)) ∧
        errOf (stepAt (bisStep f tol) ⟨a, b, f a, f b⟩ (m.toNat - 1)) = some res.err) ∧
    (∀ (f : ℚ → ℚ) (a b tol : ℚ) (m : ℤ),
      f a * f b ≤ 0 → 1 ≤ m →
      (∀ j, j < m.toNat → isOkE (stepAt (regStep f tol) ⟨a, b, f a, f b, none⟩ j) = true ∧
        ¬ residualMet f tol (stepAt (regStep f tol) ⟨a, b, f a, f b, none⟩ j)) →
      ∃ res, regula_falsi f a b tol m = .ok res ∧ (res.iters : ℤ) = m ∧
        some res.root = xOf (stepAt (regStep f tol) ⟨a, b, f a, f b, none⟩ (m.toNat - 1)) ∧
        errOf (stepAt (regStep f tol) ⟨a, b, f a, f b, none⟩ (m.toNat - 1)) = some res.err) ∧
    (∀ (f : ℚ → ℚ) (x0 x1 tol : ℚ) (m : ℤ),
      1 ≤ m →
      (∀ j, j < m.toNat → isOkE (stepAt (secStep f tol) ⟨x0, x1⟩ j) = true ∧
        ¬ residualMet f tol (stepAt (secStep f tol) ⟨x0, x1⟩ j)) →
      ∃ res, secant f x0 x1 tol m = .ok res ∧ (res.iters : ℤ) = m ∧
        some res.root = xOf (stepAt (secStep f tol) ⟨x0, x1⟩ (m.toNat - 1)) ∧
        errOf (stepAt (secStep f tol) ⟨x0, x1⟩ (m.toNat - 1)) = some res.err) ∧
    (∀ (f : ℚ → ℚ) (x0 tol : ℚ) (m : ℤ),
      1 ≤ m →
      (∀ j, j < m.toNat → isOkE (stepAt (newtStep f tol) x0 j) = true ∧
        ¬ residualMet f tol (stepAt (newtStep f tol) x0 j)) →
      ∃ res, newton_raphson f x0 tol m = .ok res ∧ (res.iters : ℤ) = m ∧
        some res.root = xOf (stepAt (newtStep f tol) x0 (m.toNat - 1)) ∧
        errOf (stepAt (newtStep f tol) x0 (m.toNat - 1)) = some res.err) ∧
    (∀ (f : ℚ → ℚ) (x0 delta tol : ℚ) (m : ℤ),
      1 ≤ m →
      (∀ j, j < m.toNat → isOkE (stepAt (modStep f delta tol) x0 j) = true ∧
        ¬ residualMet f tol (stepAt (modStep f delta tol) x0 j)) →
      ∃ res, modified_secant f x0 delta tol m = .ok res ∧ (res.iters : ℤ) = m ∧
        some res.root = xOf (stepAt (modStep f delta tol) x0 (m.toNat - 1)) ∧
        errOf (stepAt (modStep f delta tol) x0 (m.toNat - 1)) = some res.err) ∧
    (∀ (g : ℚ → ℚ) (x0 tol : ℚ) (m : ℤ),
      1 ≤ m →
      (∀ j, j < m.toNat → isOkE (stepAt (fixStep g tol) x0 j) = true ∧
        ¬ errOnlyMet tol (stepAt (fixStep g tol) x0 j)) →
      ∃ res, fixed_point_iteration g x0 tol m = .ok res ∧ (res.iters : ℤ) = m ∧
        some res.root = xOf (stepAt (fixStep g tol) x0 (m.toNat - 1)) ∧
        errOf (stepAt (fixStep g tol) x0 (m.toNat - 1)) = some res.err) := by
  refine ⟨?_, ?_, ?_, ?_, ?_, ?_⟩
  · intro f a b tol m hbr hm hpre
    rw [bisection_eq_runLoop f a b tol m hbr]
    exact runLoop_none_met (bisStep f tol) (residualMet f tol)
      (bisStep_stop_iff f tol) (fun e => id) m ⟨a, b, f a, f b⟩ hm hpre
  · intro f a b tol m hbr hm hpre
    rw [regula_falsi_eq_runLoop f a b tol m hbr]
    exact runLoop_none_met (regStep f tol) (residualMet f tol)
      (regStep_stop_iff f tol) (fun e => id) m ⟨a, b, f a, f b, none⟩ hm hpre
  · intro f x0 x1 tol m hm hpre
    exact runLoop_none_met (secStep f tol) (residualMet f tol)
      (secStep_stop_iff f tol) (fun e => id) m ⟨x0, x1⟩ hm hpre
  · intro f x0 tol m hm hpre
    exact runLoop_none_met (newtStep f tol) (residualMet f tol)
      (newtStep_stop_iff f tol) (fun e => id) m x0 hm hpre
  · intro f x0 delta tol m hm hpre
    exact runLoop_none_met (modStep f delta tol) (residualMet f tol)
      (modStep_stop_iff f delta tol) (fun e => id) m x0 hm hpre
  · intro g x0 tol m hm hpre
    exact runLoop_none_met (fixStep g tol) (errOnlyMet tol)
      (fixStep_stop_iff g tol) (fun e => id) m x0 hm hpre

/-- C2 witness: concrete runs with tolerance 0 (no criterion can ever be
met) exhausting a cap of 2 and returning the last pass's values. -/
theorem C2_witness :
    (∃ res, bisection (fun x => 3*x - 1) 0 1 0 2 = .ok res ∧ (res.iters : ℤ) = 2 ∧
      some res.root = some (1/4) ∧ (some (some (1/4)) : Option (Option ℚ)) = some res.err) ∧
    (∃ res, secant (fun x => x) 0 1 0 2 = .ok res ∧ (res.iters : ℤ) = 2 ∧
      some res.root = some 0 ∧ (some (some 0) : Option (Option ℚ)) = some res.err) ∧
    (∃ res, fixed_point_iteration (fun x => 2 * x) 1 0 2 = .ok res ∧ (res.iters : ℤ) = 2 ∧
      some res.root = some 4 ∧ (some (some 2) : Option (Option ℚ)) = some res.err) := by
  refine ⟨?_, ?_, ?_⟩
  · exact C2_cap_exhaustion.1 (fun x => 3*x - 1) 0 1 0 2 (by decide) (by decide)
      (by decide)
  · exact C2_cap_exhaustion.2.2.1 (fun x => x) 0 1 0 2 (by decide) (by decide)
  · exact C2_cap_exhaustion.2.2.2.2.2 (fun x => 2 * x) 1 0 2 (by decide) (by decide)

/-! ## Bisection bracket-width analysis (claims C5 and C6) -/

theorem bisStep_ok (f : ℚ → ℚ) (tol : ℚ) (s : BisState) :
    bisStep f tol s = .ok
      { x := (s.a + s.b) / 2, fx := some (f ((s.a + s.b) / 2)),
        err := some (|s.b - s.a| / 2),
        stop := decide (|f ((s.a + s.b) / 2)| < tol) || decide (|s.b - s.a| / 2 < tol),
        next := if s.fa * f ((s.a + s.b) / 2) < 0
          then ⟨s.a, (s.a + s.b) / 2, s.fa, f ((s.a + s.b) / 2)⟩
          else ⟨(s.a + s.b) / 2, s.b, f ((s.a + s.b) / 2), s.fb⟩ } := rfl

/-- Either way the bracket is narrowed, its signed width exactly halves. -/
theorem bisStep_next_width (f : ℚ → ℚ) (tol : ℚ) (s : BisState)
    (r : StepRes BisState) (h : bisStep f tol s = .ok r) :
    r.next.b - r.next.a = (s.b - s.a) / 2 := by
  have h' := (bisStep_ok f tol s).symm.trans h
  have h2 := Except.ok.inj h'
  rw [← h2]
  show (if s.fa * f ((s.a + s.b) / 2) < 0
      then (⟨s.a, (s.a + s.b) / 2, s.fa, f ((s.a + s.b) / 2)⟩ : BisState)
      else ⟨(s.a + s.b) / 2, s.b, f ((s.a + s.b) / 2), s.fb⟩).b -
    (if s.fa * f ((s.a + s.b) / 2) < 0
      then (⟨s.a, (s.a + s.b) / 2, s.fa, f ((s.a + s.b) / 2)⟩ : BisState)
      else ⟨(s.a + s.b) / 2, s.b, f ((s.a + s.b) / 2), s.fb⟩).a = (s.b - s.a) / 2
  by_cases hc : s.fa * f ((s.a + s.b) / 2) < 0
  · rw [if_pos hc]
    show (s.a + s.b) / 2 - s.a = (s.b - s.a) / 2
    ring
  · rw [if_neg hc]
    show s.b - (s.a + s.b) / 2 = (s.b - s.a) / 2
    ring

/-- The bisection loop never raises and after `j` passes the signed
bracket width is the initial width over `2^j`. -/
theorem bis_states_width (f : ℚ → ℚ) (tol : ℚ) : ∀ (j : ℕ) (s0 : BisState),
    ∃ s : BisState, states (bisStep f tol) s0 j = .ok s ∧
      s.b - s.a = (s0.b - s0.a) / 2 ^ j := by
  intro j
  induction j with
  | zero =>
    intro s0
    refine ⟨s0, rfl, ?_⟩
    rw [pow_zero, div_one]
  | succ j ih =>
    intro s0
    obtain ⟨r, hr⟩ : ∃ r, bisStep f tol s0 = .ok r := ⟨_, rfl⟩
    obtain ⟨s, hs, hw⟩ := ih r.next
    refine ⟨s, ?_, ?_⟩
    · rw [states_succ_of_ok (bisStep f tol) hr j]
      exact hs
    · rw [hw, bisStep_next_width f tol s0 r hr]
      ring

/-- Pass `j+1` of bisection (0-indexed `j`) runs and records the error
`|b−a| / 2^(j+1)`: half the width of the bracket current at the start of
that pass. -/
theorem bis_stepAt_err (f : ℚ → ℚ) (tol : ℚ) (a b : ℚ) (j : ℕ) :
    ∃ r, stepAt (bisStep f tol) ⟨a, b, f a, f b⟩ j = .ok r ∧
      r.err = some (|b - a| / 2 ^ (j + 1)) := by
  obtain ⟨s, hs, hw⟩ := bis_states_width f tol j ⟨a, b, f a, f b⟩
  have hst : stepAt (bisStep f tol) ⟨a, b, f a, f b⟩ j = bisStep f tol s :=
    stepAt_eq_of_states _ hs
  refine ⟨_, by rw [hst]; exact bisStep_ok f tol s, ?_⟩
  show some (|s.b - s.a| / 2) = some (|b - a| / 2 ^ (j + 1))
  have hw' : s.b - s.a = (b - a) / 2 ^ j := hw
  rw [hw', abs_div, abs_pow, abs_two, div_div, ← pow_succ]

/-! ## Claim C5 -/

/-- C5 counterexample: the claimed bound
`iterations ≤ max(1, ⌈log2(|b−a|/tolerance)⌉)` fails when
`|b−a|/tolerance` is an exact power of two.  With `f(x) = 3x−1` on
`[0,1]` and tolerance `1/2` the ratio is `2`, the claimed bound is
`max(1, 1) = 1`, but no stop test fires on pass 1
(`|f(1/2)| = 1/2 ≮ 1/2` and `err = 1/2 ≮ 1/2`), so bisection returns
after 2 iterations. -/
theorem C5_counterexample :
    ¬ (∀ (f : ℚ → ℚ) (a b tol : ℚ) (m : ℤ) (res : SolveResult),
        f a * f b ≤ 0 → 0 < tol → bisection f a b tol m = .ok res →
        (res.iters : ℤ) ≤ max 1 (Int.clog 2 (|b - a| / tol))) := by
  intro hclaim
  have hrun : bisection (fun x => 3*x - 1) 0 1 (1/2) 100 = .ok
      ⟨1/4, some (1/4), 2, [⟨1, 1/2, some (1/2), some (1/2)⟩,
        ⟨2, 1/4, some (-(1/4)), some (1/4)⟩]⟩ := by decide
  have h := hclaim (fun x => 3*x - 1) 0 1 (1/2) 100 _ (by decide) (by decide) hrun
  have harg : |(1:ℚ) - 0| / (1/2) = ((2:ℕ) : ℚ) := by norm_num
  rw [harg, Int.clog_natCast, Nat.clog_eq_one (by norm_num) (by norm_num)] at h
  norm_num at h

/-- C5 (amended): for a valid bracket and positive tolerance, the
iteration count of a returned bisection run is at most every `N ≥ 1`
with `|b−a| < tolerance·2^N` — i.e. at most
`max(1, ⌊log2(|b−a|/tolerance)⌋ + 1)`.  This is the claim's ceiling
bound except when `|b−a|/tolerance` is an exact power of two, where the
strict stop test `err < tol` needs one extra iteration. -/
theorem C5_amended (f : ℚ → ℚ) (a b tol : ℚ) (m : ℤ) (res : SolveResult)
    (N : ℕ) (hbr : f a * f b ≤ 0) (htol : 0 < tol)
    (hres : bisection f a b tol m = .ok res)
    (hN : 1 ≤ N) (hbound : |b - a| < tol * 2 ^ N) :
    res.iters ≤ N := by
  by_contra hlt
  push_neg at hlt
  rw [bisection_eq_runLoop f a b tol m hbr] at hres
  have hinv := runLoop_ok_inv (bisStep f tol) m ⟨a, b, f a, f b⟩ res hres
    (N - 1) (by omega)
  obtain ⟨r, hr, herr⟩ := bis_stepAt_err f tol a b (N - 1)
  have hNe : N - 1 + 1 = N := by omega
  rw [hNe] at herr
  have herrlt : |b - a| / 2 ^ N < tol := by
    rw [div_lt_iff (by positivity)]
    exact hbound
  have hmet : residualMet f tol (stepAt (bisStep f tol) ⟨a, b, f a, f b⟩ (N - 1)) := by
    rw [hr]
    refine Or.inr ?_
    rw [herr]
    exact herrlt
  have hstop := (stopOf_stepAt_iff (bisStep f tol) (residualMet f tol)
    (bisStep_stop_iff f tol) (fun e => id) ⟨a, b, f a, f b⟩ (N - 1)).mpr hmet
  have hfalse := hinv.2
  rw [hstop] at hfalse
  exact Bool.noConfusion hfalse

/-- C5 witness for the amended bound: `|1−0| < (1/2)·2^2`, so the run
takes at most 2 iterations (it takes exactly 2). -/
theorem C5_witness :
    bisection (fun x => 3*x - 1) 0 1 (1/2) 100 = .ok
      ⟨1/4, some (1/4), 2, [⟨1, 1/2, some (1/2), some (1/2)⟩,
        ⟨2, 1/4, some (-(1/4)), some (1/4)⟩]⟩ ∧
    (⟨1/4, some (1/4), 2, [⟨1, 1/2, some (1/2), some (1/2)⟩,
        ⟨2, 1/4, some (-(1/4)), some (1/4)⟩]⟩ : SolveResult).iters ≤ 2 := by
  constructor
  · decide
  · exact C5_amended (fun x => 3*x - 1) 0 1 (1/2) 100 _ 2 (by decide) (by decide)
      (by decide) (by decide) (by norm_num)

/-! ## Claim C6 -/

/-- C6: every recorded bisection error is half the width of the bracket
current at the start of its pass, equals the initial width over `2^(j+1)`
for the record at position `j` (iteration `j+1`), and halves exactly from
each record to the next. -/
theorem C6_error_halves (f : ℚ → ℚ) (a b tol : ℚ) (m : ℤ) (res : SolveResult)
    (hres : bisection f a b tol m = .ok res) :
    ∀ j, (hj : j < res.rows.length) →
      ∃ s : BisState, states (bisStep f tol) ⟨a, b, f a, f b⟩ j = .ok s ∧
        (res.rows[j]).err = some (|s.b - s.a| / 2) ∧
        (res.rows[j]).err = some (|b - a| / 2 ^ (j + 1)) ∧
        ∀ (hj1 : j + 1 < res.rows.length),
          (res.rows[j+1]).err = some (|b - a| / 2 ^ (j + 1) / 2) := by
  have hbr : ¬ f a * f b > 0 := by
    intro hgt
    rw [bisection_invalid f a b tol m hgt] at hres
    exact Except.noConfusion hres
  rw [bisection_eq_runLoop f a b tol m (not_lt.mp hbr)] at hres
  have hrows := (runLoop_rows (bisStep f tol) m ⟨a, b, f a, f b⟩ res hres).2
  have hrec : ∀ j, (hj : j < res.rows.length) →
      (res.rows[j]).err = some (|b - a| / 2 ^ (j + 1)) := by
    intro j hj
    have h1 := hrows j hj
    obtain ⟨r, hr, herr⟩ := bis_stepAt_err f tol a b j
    rw [hr] at h1
    have h2 : (⟨j+1, r.x, r.fx, r.err⟩ : IterationRecord) = res.rows[j] :=
      Option.some.inj h1
    rw [← h2]
    exact herr
  intro j hj
  obtain ⟨s, hs, hw⟩ := bis_states_width f tol j ⟨a, b, f a, f b⟩
  refine ⟨s, hs, ?_, hrec j hj, ?_⟩
  · rw [hrec j hj]
    have hw' : s.b - s.a = (b - a) / 2 ^ j := hw
    rw [hw', abs_div, abs_pow, abs_two, div_div, ← pow_succ]
  · intro hj1
    rw [hrec (j+1) hj1, div_div, ← pow_succ]

/-- C6 witness on a 3-pass run: the recorded errors are `1/2, 1/4, 1/8`,
each half the bracket width at the start of its pass. -/
theorem C6_witness :
    ∃ s : BisState, states (bisStep (fun x => 3*x - 1) (1/100)) ⟨0, 1, (fun x => 3*x - 1) 0, (fun x => 3*x - 1) 1⟩ 1 = .ok s ∧
      ((⟨3/8, some (1/8), 3, [⟨1, 1/2, some (1/2), some (1/2)⟩,
        ⟨2, 1/4, some (-(1/4)), some (1/4)⟩,
        ⟨3, 3/8, some (1/8), some (1/8)⟩]⟩ : SolveResult).rows[1]).err =
          some (|s.b - s.a| / 2) ∧
      ((⟨3/8, some (1/8), 3, [⟨1, 1/2, some (1/2), some (1/2)⟩,
        ⟨2, 1/4, some (-(1/4)), some (1/4)⟩,
        ⟨3, 3/8, some (1/8), some (1/8)⟩]⟩ : SolveResult).rows[1]).err =
          some (|1 - 0| / 2 ^ (1 + 1)) ∧
      ∀ (hj1 : 1 + 1 < (⟨3/8, some (1/8), 3, [⟨1, 1/2, some (1/2), some (1/2)⟩,
        ⟨2, 1/4, some (-(1/4)), some (1/4)⟩,
        ⟨3, 3/8, some (1/8), some (1/8)⟩]⟩ : SolveResult).rows.length),
        ((⟨3/8, some (1/8), 3, [⟨1, 1/2, some (1/2), some (1/2)⟩,
          ⟨2, 1/4, some (-(1/4)), some (1/4)⟩,
          ⟨3, 3/8, some (1/8), some (1/8)⟩]⟩ : SolveResult).rows[1+1]).err =
            some (|1 - 0| / 2 ^ (1 + 1) / 2) :=
  C6_error_halves (fun x => 3*x - 1) 0 1 (1/100) 3 _ (by decide) 1 (by decide)

example : bisection (fun x => 3*x - 1) 0 1 (1/2) 100 =
    .ok ⟨1/4, some (1/4), 2,
      [⟨1, 1/2, some (1/2), some (1/2)⟩, ⟨2, 1/4, some (-(1/4)), some (1/4)⟩]⟩ := by
  decide

example : secant (fun x => x*x - 2) 1 1 (1/1000000) 100 = .error .zeroDenominator := by
  decide
